import Mathlib

/-!
Shallow embedding of the seneca-database object store.

The source is a small SQLAlchemy layer: `models.py` declares six mapped
classes (Gateware, DeviceDB, Project, Pipeline, Sequence, Measurement), each
mixing in the columns `id`, `name`, `time`, `version`, and `functions.py`
provides kind-polymorphic operations (`search_objects`, `get_object_by_id`,
`add_object`, `update_object`, `delete_object`, `write_database`,
`print_info`) plus the `session_scope` transaction wrapper.

Modelling choices (each noted again at the definition it concerns):
* a row is its id plus a finite map from column names to values; columns not
  set on insert read as NULL;
* the SQLite id allocator is modelled as a per-table counter starting at 1;
* `datetime.datetime.utcnow()` is an oracle outside the program:
  `add_object_at` takes the returned timestamp as an explicit parameter
  (covering executions where consecutive calls observe equal values,
  utcnow having finite resolution), and `add_object` drives it with a
  strictly increasing tick counter on the store, the schedule on which
  consecutive calls observe distinct timestamps;
* fallible Python code (AttributeError, TypeError, the `.one()` lookups)
  is modelled with `Except`.
-/

namespace Seneca

/-- The six entity kinds, the keys of the `obj_types` dict in functions.py. -/
inductive Kind
  | gateware | devicedb | project | pipeline | sequence | measurement
deriving DecidableEq, Repr

/-- The keys of `obj_types` in their dict (insertion) order, functions.py
line 45. -/
def allKinds : List Kind :=
  [.gateware, .devicedb, .project, .pipeline, .sequence, .measurement]

/-- The string tag of each kind, as used by the `obj_types` dict and by the
foreign-key naming convention `<kind>_id`. -/
def kindName : Kind → String
  | .gateware => "gateware"
  | .devicedb => "devicedb"
  | .project => "project"
  | .pipeline => "pipeline"
  | .sequence => "sequence"
  | .measurement => "measurement"

/-- A column value: an integer (ids, foreign keys, version, the modelled
timestamp), a string (names, paths, JSON documents), or NULL. -/
inductive Val
  | int (n : Int)
  | str (s : String)
  | null
deriving DecidableEq, Repr

/-- Columns shared by all six classes via the `Mixin` class, models.py. -/
def mixinColumns : List String := ["id", "name", "time", "version"]

/-- The extra mapped columns of each class, from models.py.  Note that
`Gateware.EEM_connections` is written `ARRAY(String)` without a `Column(...)`
wrapper, so it is not a mapped column and is omitted here. -/
def extraColumns : Kind → List String
  | .gateware => ["path", "filename"]
  | .devicedb => ["path", "filename", "gateware_id"]
  | .project => ["description", "devicedb_id"]
  | .pipeline => ["description", "ordering", "project_id"]
  | .sequence => ["path", "filename", "description", "params", "pipeline_id"]
  | .measurement => ["path_csv", "filename_csv", "path_jpg", "filename_jpg",
                     "path_HDF5", "filename_HDF5", "sequence_id"]

/-- All mapped columns of a kind. -/
def columns (k : Kind) : List String := mixinColumns ++ extraColumns k

/-- The relationship attributes of each class, from models.py. -/
def relNames (k : Kind) : List (String × Kind) :=
  match k with
  | .gateware => [("devicedb", .devicedb)]
  | .devicedb => [("gateware", .gateware), ("projects", .project)]
  | .project => [("devicedb", .devicedb), ("pipelines", .pipeline)]
  | .pipeline => [("project", .project), ("sequences", .sequence)]
  | .sequence => [("pipeline", .pipeline), ("measurements", .measurement)]
  | .measurement => [("sequence", .sequence)]

/-- A persisted row: the primary key plus the set column values.  Columns
absent from `attrs` read as NULL. -/
structure Row where
  id : Nat
  attrs : List (String × Val)
deriving DecidableEq, Repr

/-- Reading a column of a row, as the query layer sees it.  The primary key
lives in the `id` field; every other column is looked up in `attrs`, with
NULL for a column never set. -/
def rowGet (r : Row) (a : String) : Val :=
  if a = "id" then .int r.id else (List.lookup a r.attrs).getD .null

/-- Overwrite (or create) one entry of a column map. -/
def setAttrList : List (String × Val) → String → Val → List (String × Val)
  | [], a, v => [(a, v)]
  | (b, w) :: t, a, v =>
      if b = a then (a, v) :: t else (b, w) :: setAttrList t a v

/-- Overwrite one column of a row (the effect of `setattr` on a mapped
column other than the primary key). -/
def setRowAttr (r : Row) (a : String) (v : Val) : Row :=
  { r with attrs := setAttrList r.attrs a v }

/-- One table: its rows (in insertion order) and the next primary key the
store will assign.  SQLite's INTEGER PRIMARY KEY allocator is modelled as a
monotone counter starting at 1; SQLite may reuse the largest freed rowid
after a delete, but no claim depends on that corner. -/
structure Table where
  rows : List Row
  nextId : Nat
deriving DecidableEq, Repr

/-- The whole store: one table per entity kind, plus the modelled wall
clock (see `utcnow` remarks in the file header). -/
structure Store where
  gateware : Table
  devicedb : Table
  project : Table
  pipeline : Table
  sequence : Table
  measurement : Table
  clock : Nat
deriving DecidableEq, Repr

def emptyTable : Table := { rows := [], nextId := 1 }

def emptyStore : Store :=
  { gateware := emptyTable, devicedb := emptyTable, project := emptyTable,
    pipeline := emptyTable, sequence := emptyTable, measurement := emptyTable,
    clock := 0 }

def Store.table (st : Store) : Kind → Table
  | .gateware => st.gateware
  | .devicedb => st.devicedb
  | .project => st.project
  | .pipeline => st.pipeline
  | .sequence => st.sequence
  | .measurement => st.measurement

def Store.setTable (st : Store) (k : Kind) (t : Table) : Store :=
  match k with
  | .gateware => { st with gateware := t }
  | .devicedb => { st with devicedb := t }
  | .project => { st with project := t }
  | .pipeline => { st with pipeline := t }
  | .sequence => { st with sequence := t }
  | .measurement => { st with measurement := t }

/-- The Python exceptions the modelled operations can raise. -/
inductive PyErr
  | attributeError
  | typeError
  | indexError
  | noResultFound
  | multipleResultsFound
deriving DecidableEq, Repr

/-- Ascending-id comparison used by `order_by(cls.id)`. -/
def byId (a b : Row) : Prop := a.id ≤ b.id

instance : DecidableRel byId := fun a b => inferInstanceAs (Decidable (a.id ≤ b.id))

instance : IsTotal Row byId := ⟨fun a b => Nat.le_total a.id b.id⟩

instance : IsTrans Row byId := ⟨fun _ _ _ => Nat.le_trans⟩

/-- `order_by(obj_types[obj_type].id)`: sort the table ascending by id. -/
def sortById (l : List Row) : List Row := List.insertionSort byId l

/-- One equality filter, `getattr(cls, attr) == value`.  SQLAlchemy turns a
`== None` filter into IS NULL, so NULL compares equal to NULL here. -/
def matchesFilters (r : Row) (F : List (String × Val)) : Bool :=
  F.all fun p => rowGet r p.1 == p.2

/-- The result set of the query built by `search_objects` (functions.py
lines 66-69): order by ascending id, then keep the rows matching every
equality filter. -/
def searchRows (st : Store) (k : Kind) (F : List (String × Val)) : List Row :=
  (sortById (st.table k).rows).filter fun r => matchesFilters r F

/-- `search_objects(session, obj_type, **kwargs)`.  `getattr(cls, attr)`
raises AttributeError when a filter key is not an attribute of the mapped
class; filters on mapped columns are the modelled domain (a filter keyed by
a relationship name would build a relationship criterion instead and is not
modelled). -/
def search_objects (st : Store) (k : Kind) (F : List (String × Val)) :
    Except PyErr (List Row) :=
  if F.all (fun p => (columns k).contains p.1) then .ok (searchRows st k F)
  else .error .attributeError

/-- `get_object_by_id(session, obj_type, id)`: `.one()` on the id filter,
raising NoResultFound / MultipleResultsFound as in the source docstring. -/
def get_object_by_id (st : Store) (k : Kind) (i : Nat) : Except PyErr Row :=
  match (st.table k).rows.filter (fun r => r.id == i) with
  | [] => .error .noResultFound
  | [r] => .ok r
  | _ => .error .multipleResultsFound

/-- The warnings `add_object` and `write_database` print. -/
inductive Warn
  | dangling (k : Kind) (parent : Kind) (v : Val)
  | duplicate (k : Kind)
  | emptyDatabase
deriving DecidableEq, Repr

/-- Result of `add_object`: the returned id (0 is the sentinel for "not
added"), the store after the call, and the warnings printed. -/
structure AddResult where
  id : Nat
  store : Store
  warns : List Warn
deriving DecidableEq, Repr

/-- The foreign-key validation loop of `add_object` (functions.py lines
120-124): walk `obj_types.keys()` in dict order; for the first key whose
`<kind>_id` appears in the kwargs but matches no row of that kind, report
the dangling reference. -/
def firstDanglingAux (st : Store) (A : List (String × Val)) :
    List Kind → Option (Kind × Val)
  | [] => none
  | pk :: rest =>
      match List.lookup (kindName pk ++ "_id") A with
      | some v =>
          if (searchRows st pk [("id", v)]).isEmpty then some (pk, v)
          else firstDanglingAux st A rest
      | none => firstDanglingAux st A rest

def firstDangling (st : Store) (A : List (String × Val)) : Option (Kind × Val) :=
  firstDanglingAux st A allKinds

/-- Distinct kwargs keys (Python keyword arguments cannot repeat). -/
def nodupKeys : List (String × Val) → Bool
  | [] => true
  | (a, _) :: t => !(t.any fun p => p.1 == a) && nodupKeys t

/-- The kwargs accepted by the declarative constructor call
`obj_types[obj_type](version=1, time=time, **kwargs)`: keys must be mapped
columns (an unknown keyword raises TypeError), and `version` / `time` would
be duplicate keyword arguments (TypeError).  Explicit primary-key insertion
via an `id` keyword is excluded from the modelled domain. -/
def legalAdd (k : Kind) (A : List (String × Val)) : Bool :=
  nodupKeys A &&
  A.all fun p =>
    (columns k).contains p.1 && p.1 != "id" && p.1 != "version" && p.1 != "time"

/-- `session.add` followed by the autoflush triggered by the re-query:
append the new row with the next primary key. -/
def insertRow (st : Store) (k : Kind) (A : List (String × Val)) : Store :=
  let t := st.table k
  st.setTable k { rows := t.rows ++ [⟨t.nextId, A⟩], nextId := t.nextId + 1 }

/-- The tail of `add_object` after its guards (functions.py lines 129-133):
stamp the new row with the value `now` that `datetime.datetime.utcnow()`
returned, flush the insert, and return the id found by re-querying on the
full attribute set, ordered ascending by id, taking element `[0]`. -/
def insertAndRequery (st : Store) (k : Kind) (A : List (String × Val))
    (now : Int) : Except PyErr AddResult :=
  let newAttrs := ("version", Val.int 1) :: ("time", Val.int now) :: A
  let st2 := insertRow st k newAttrs
  match searchRows st2 k newAttrs with
  | [] => .error .indexError
  | r :: _ => .ok ⟨r.id, st2, []⟩

/-- `add_object` with the value returned by `datetime.datetime.utcnow()`
made an explicit parameter.  The wall clock is an oracle outside the
program: utcnow has finite resolution, so nothing prevents two consecutive
calls from observing the same timestamp, and then the `[0]` of the
re-query resolves both calls to the row with the smallest id.
`add_object` below is this function driven by the modelled platform
clock. -/
def add_object_at (st : Store) (k : Kind) (duplicates : Bool)
    (A : List (String × Val)) (now : Int) : Except PyErr AddResult :=
  match firstDangling st A with
  | some (pk, v) => .ok ⟨0, st, [.dangling k pk v]⟩
  | none =>
      if legalAdd k A then
        if duplicates || (searchRows st k (("version", Val.int 1) :: A)).isEmpty then
          insertAndRequery st k A now
        else .ok ⟨0, st, [.duplicate k]⟩
      else .error .typeError

/-- `add_object(session, obj_type, duplicates=False, **kwargs)`, functions.py
lines 94-133: foreign-key check (sentinel 0 plus warning on a dangling
reference), optional duplicate probe `search(kind, version=1, **kwargs)`
(sentinel 0 plus warning on a hit), then insert with version=1 and the
current time and return the id found by re-querying on the full attribute
set.  The source raises TypeError at the duplicate probe or the constructor
when the kwargs are not legal (see `legalAdd`); the embedding raises it
right after the foreign-key loop, which is the same observable order for
the modelled claims.  Here utcnow is driven by the modelled platform
clock, which advances between calls, so consecutive calls observe distinct
timestamps; executions in which utcnow returns equal values on consecutive
calls are analysed through `add_object_at` directly. -/
def add_object (st : Store) (k : Kind) (duplicates : Bool)
    (A : List (String × Val)) : Except PyErr AddResult :=
  match firstDangling st A with
  | some (pk, v) => .ok ⟨0, st, [.dangling k pk v]⟩
  | none =>
      if legalAdd k A then
        if duplicates || (searchRows st k (("version", Val.int 1) :: A)).isEmpty then
          insertAndRequery { st with clock := st.clock + 1 } k A (st.clock : Int)
        else .ok ⟨0, st, [.duplicate k]⟩
      else .error .typeError

/-- One `setattr` of the update loop.  Overwriting a mapped column is
persisted; `setattr` on the primary key is flushed as an UPDATE that moves
the row to the new id (a non-integer primary-key value, possible because
SQLite is dynamically typed, is outside the modelled domain and left in
place); a keyword that is not a mapped attribute only creates a transient
Python attribute, with no persisted effect, so it is a no-op here. -/
def applyOneKwarg (k : Kind) (r : Row) (p : String × Val) : Row :=
  if (columns k).contains p.1 then
    if p.1 == "id" then
      match p.2 with
      | .int n => { r with id := n.toNat }
      | _ => r
    else setRowAttr r p.1 p.2
  else r

/-- The `setattr` loop of `update_object` (functions.py lines 175-176). -/
def applyKwargs (k : Kind) (r : Row) (A : List (String × Val)) : Row :=
  A.foldl (applyOneKwarg k) r

/-- `update_object(session, obj_type, id, update_time=True, **kwargs)`,
functions.py lines 154-179: resolve the row, apply each kwarg as an
overwrite, run `obj.version += 1` (TypeError if the version column does not
hold an integer at that point), and refresh the timestamp when
`update_time` is set. -/
def update_object (st : Store) (k : Kind) (i : Nat) (update_time : Bool)
    (A : List (String × Val)) : Except PyErr Store :=
  match get_object_by_id st k i with
  | .error e => .error e
  | .ok obj =>
      let obj1 := applyKwargs k obj A
      match List.lookup "version" obj1.attrs with
      | some (Val.int n) =>
          let obj2 := setRowAttr obj1 "version" (.int (n + 1))
          let t := st.table k
          if update_time then
            let obj3 := setRowAttr obj2 "time" (.int st.clock)
            .ok (Store.setTable { st with clock := st.clock + 1 } k
                  { t with rows := t.rows.map fun r => if r.id == i then obj3 else r })
          else
            .ok (st.setTable k
                  { t with rows := t.rows.map fun r => if r.id == i then obj2 else r })
      | _ => .error .typeError

/-- A batch of successive `update_object` calls on one row: each entry is
the `update_time` flag and the kwargs of one call. -/
def applyUpdates (st : Store) (k : Kind) (i : Nat) :
    List (Bool × List (String × Val)) → Except PyErr Store
  | [] => .ok st
  | (bt, A) :: rest =>
      match update_object st k i bt A with
      | .error e => .error e
      | .ok st2 => applyUpdates st2 k i rest

/-- What `session_scope` leaves behind: the durable store contents, the
exception it re-raised (if any), and whether `session.close()` ran. -/
structure ScopeResult (ε : Type) where
  store : Store
  raised : Option ε
  closed : Bool
deriving Repr

/-- `session.commit()`: the pending state of the session becomes durable. -/
def commitSession (pending : Store) : Store := pending

/-- `session.rollback()`: the pending changes are discarded and the durable
state is whatever it was when the session opened. -/
def rollbackSession (base : Store) : Store := base

/-- `session_scope(Session)`, functions.py lines 8-31: run the body against
the session; commit on normal exit, roll back and re-raise on any
exception, and close the session on both paths (the `finally` block). -/
def session_scope {ε : Type} (body : Store → Except ε Store) (db : Store) :
    ScopeResult ε :=
  match body db with
  | .ok pending => { store := commitSession pending, raised := none, closed := true }
  | .error e => { store := rollbackSession db, raised := some e, closed := true }

/-- The JSON documents `write_database` builds. -/
inductive JVal
  | str (s : String)
  | int (n : Int)
  | null
  | arr (l : List JVal)
  | obj (l : List (String × JVal))

def valToJ : Val → JVal
  | .int n => .int n
  | .str s => .str s
  | .null => .null

/-- `obj.asdict()` (dictalchemy): the mapped columns of the row as a flat
dictionary. -/
def rowAsdict (k : Kind) (r : Row) : JVal :=
  .obj ((columns k).map fun c => (c, valToJ (rowGet r c)))

/-- Add one field to a JSON object, as `d[key] = value` does. -/
def jsonSetField (j : JVal) (f : String) (v : JVal) : JVal :=
  match j with
  | .obj l => .obj (l ++ [(f, v)])
  | _ => j

/-- functions.py line 229 calls `.asdict()` on `devicedb`, which is the
*list* returned by `search_objects`, not a row; a Python list has no
`asdict` method, so this raises AttributeError. -/
def listAsdict (_ : List Row) : Except PyErr JVal := .error .attributeError

/-- The per-gateware loop body of `write_database` (functions.py lines
226-241).  The first statement after appending the gateware dict binds
`devicedb` to a list of rows and then calls `.asdict()` on that list, which
raises AttributeError; every statement after that point in the source loop
body (`devicedb.id`, the nested project / pipeline / sequence / measurement
loops) is unreachable whenever a gateware row exists, so only the reachable
prefix is spelled out here. -/
def writeGatewareList (st : Store) : List Row → Except PyErr (List JVal)
  | [] => .ok []
  | gw :: rest => do
      let gwDict := rowAsdict .gateware gw
      let devicedb := searchRows st .devicedb [("gateware_id", Val.int (gw.id : Int))]
      let ddbDict ← listAsdict devicedb
      let restEntries ← writeGatewareList st rest
      .ok (jsonSetField gwDict "devicedb" ddbDict :: restEntries)

/-- `write_database(session, outfile)`, functions.py lines 216-244, minus
the file write: walk the gateware table and build the nested JSON document;
warn when the document is still `{"gateware": []}` at the end. -/
def write_database (st : Store) : Except PyErr (JVal × List Warn) := do
  let entries ← writeGatewareList st (searchRows st .gateware [])
  let data := JVal.obj [("gateware", .arr entries)]
  if entries.isEmpty then .ok (data, [.emptyDatabase]) else .ok (data, [])

/-- A class-level attribute of a mapped class: a mapped column or a
relationship. -/
inductive ClassAttr
  | column (name : String)
  | rel (target : Kind)
deriving DecidableEq, Repr

/-- `getattr` on a mapped class: mapped columns and relationship attributes
resolve; anything else raises AttributeError. -/
def classGetattr (k : Kind) (a : String) : Except PyErr ClassAttr :=
  if (columns k).contains a then .ok (.column a)
  else
    match List.lookup a (relNames k) with
    | some t => .ok (.rel t)
    | none => .error .attributeError

/-- Modelled from the behaviour of the ORM layer (an external collaborator
per the spec): `getattr` on a class-level attribute, as in the second link
of `Sequence.pipeline.project_id`.  A column attribute exposes only SQL
operator methods, and a relationship attribute exposes only its comparator
(`any`, `has`, ...), so looking up a mapped-column name on either raises
AttributeError -- relationship traversal in a query requires an explicit
join, not attribute chaining. -/
def attrColumnGetattr (_a : ClassAttr) (_col : String) : Except PyErr ClassAttr :=
  .error .attributeError

/-- The summary branch of `print_info` (functions.py lines 263-268,
`detailed=False`).  Building `seq_cnt_query` starts by evaluating the
Python expression `Sequence.pipeline.project_id`, which raises
AttributeError before any query runs; the outer join over projects and the
tabulated output below it in the source are unreachable. -/
def printInfoSummary (_st : Store) : Except PyErr (List (List String)) := do
  let a ← classGetattr .sequence "pipeline"
  let _col ← attrColumnGetattr a "project_id"
  .ok []

/-- stores for concrete evaluation: keep only a successful add result. -/
def addOk (st : Store) (k : Kind) (dup : Bool) (A : List (String × Val)) :
    AddResult :=
  match add_object st k dup A with
  | .ok r => r
  | .error _ => ⟨0, st, []⟩

def addD (st : Store) (k : Kind) (A : List (String × Val)) : Store :=
  (addOk st k false A).store

/-- Keep only a successful `add_object_at` result. -/
def addOkAt (st : Store) (k : Kind) (dup : Bool) (A : List (String × Val))
    (now : Int) : AddResult :=
  match add_object_at st k dup A now with
  | .ok r => r
  | .error _ => ⟨0, st, []⟩

/-- First add of a stalled-clock run: utcnow returns 0. -/
def tieAdd1 : AddResult :=
  addOkAt emptyStore .gateware true [("name", Val.str "g")] 0

/-- Second add of the stalled-clock run: utcnow returns 0 again. -/
def tieAdd2 : AddResult :=
  addOkAt tieAdd1.store .gateware true [("name", Val.str "g")] 0

/-- The store of the export scenario: one fully populated chain with
1 Gateware, 1 DeviceDB, 1 Project, 1 Pipeline, 1 Sequence and
2 Measurements, built through `add_object` itself. -/
def chainStore : Store :=
  addD (addD (addD (addD (addD (addD (addD emptyStore
    .gateware [("name", .str "gw")])
    .devicedb [("name", .str "db"), ("gateware_id", .int 1)])
    .project [("name", .str "proj"), ("devicedb_id", .int 1)])
    .pipeline [("name", .str "pipe"), ("project_id", .int 1)])
    .sequence [("name", .str "seq"), ("pipeline_id", .int 1)])
    .measurement [("name", .str "m1"), ("sequence_id", .int 1)])
    .measurement [("name", .str "m2"), ("sequence_id", .int 1)]

/-- A store with one project that has no pipelines and hence no sequences. -/
def lonelyProjectStore : Store :=
  addD (addD (addD emptyStore
    .gateware [("name", .str "g")])
    .devicedb [("name", .str "d"), ("gateware_id", .int 1)])
    .project [("name", .str "p"), ("devicedb_id", .int 1)]

/-- The time column of a row holds a modelled timestamp strictly before the
store clock. -/
def timeOk (r : Row) (c : Nat) : Bool :=
  match List.lookup "time" r.attrs with
  | some (Val.int m) => decide (m < (c : Int))
  | _ => false

/-- Rows listed in strictly increasing id order. -/
def sortedStrictlyById : List Row → Bool
  | [] => true
  | [_] => true
  | a :: b :: t => decide (a.id < b.id) && sortedStrictlyById (b :: t)

/-- Well-formedness of one table: ids positive and below the allocator
counter, timestamps behind the clock, rows in strictly increasing id
order.  Stores built by `add_object` from `emptyStore` satisfy this. -/
def tableWF (t : Table) (c : Nat) : Bool :=
  decide (1 ≤ t.nextId) &&
  (t.rows.all fun r =>
    decide (1 ≤ r.id) && decide (r.id < t.nextId) && timeOk r c) &&
  sortedStrictlyById t.rows

def wf (st : Store) : Bool := allKinds.all fun k => tableWF (st.table k) st.clock

theorem lookup_setAttrList_self (l : List (String × Val)) (a : String) (v : Val) :
    List.lookup a (setAttrList l a v) = some v := by
  induction l with
  | nil => simp [setAttrList, List.lookup]
  | cons p t ih =>
      by_cases h : p.1 = a
      · simp [setAttrList, h, List.lookup]
      · have hb : (a == p.1) = false := beq_eq_false_iff_ne.mpr (Ne.symm h)
        simp [setAttrList, h, List.lookup, hb, ih]

theorem lookup_setAttrList_ne (l : List (String × Val)) (a b : String) (v : Val)
    (h : b ≠ a) : List.lookup b (setAttrList l a v) = List.lookup b l := by
  have hb : (b == a) = false := beq_eq_false_iff_ne.mpr h
  induction l with
  | nil => simp [setAttrList, List.lookup, hb]
  | cons p t ih =>
      by_cases hp : p.1 = a
      · subst hp
        simp [setAttrList, List.lookup, hb]
      · simp [setAttrList, hp, List.lookup, ih]

theorem lookup_of_mem_nodupKeys (A : List (String × Val)) (a : String) (v : Val)
    (hnd : nodupKeys A = true) (hmem : (a, v) ∈ A) : List.lookup a A = some v := by
  induction A with
  | nil => cases hmem
  | cons p t ih =>
      simp only [nodupKeys, Bool.and_eq_true, Bool.not_eq_true'] at hnd
      rcases List.mem_cons.mp hmem with h | h
      · subst h; simp [List.lookup]
      · have hne : (a == p.1) = false := by
          rw [beq_eq_false_iff_ne]
          intro he
          have : t.any (fun q => q.1 == p.1) = true :=
            List.any_eq_true.mpr ⟨(a, v), h, by simp [he]⟩
          simp [this] at hnd
        simp [List.lookup, hne, ih hnd.2 h]

theorem matchesFilters_iff (r : Row) (F : List (String × Val)) :
    matchesFilters r F = true ↔ ∀ p ∈ F, rowGet r p.1 = p.2 := by
  simp [matchesFilters, List.all_eq_true, beq_iff_eq]

theorem mem_searchRows (st : Store) (k : Kind) (F : List (String × Val)) (r : Row) :
    r ∈ searchRows st k F ↔ r ∈ (st.table k).rows ∧ matchesFilters r F = true := by
  unfold searchRows sortById
  rw [List.mem_filter, (List.perm_insertionSort byId (st.table k).rows).mem_iff]

theorem searchRows_eq_nil_iff (st : Store) (k : Kind) (F : List (String × Val)) :
    searchRows st k F = [] ↔
      ∀ r ∈ (st.table k).rows, matchesFilters r F = false := by
  rw [List.eq_nil_iff_forall_not_mem]
  constructor
  · intro h r hr
    by_contra hb
    exact h r (by rw [mem_searchRows]; exact ⟨hr, Bool.not_eq_false _ ▸ (by simpa using hb)⟩)
  · intro h r hmem
    rw [mem_searchRows] at hmem
    rw [h r hmem.1] at hmem
    cases hmem.2

/-! ### Store projection lemmas -/

theorem table_setTable_self (st : Store) (k : Kind) (t : Table) :
    (st.setTable k t).table k = t := by
  cases k <;> rfl

theorem table_setTable_ne (st : Store) (k k' : Kind) (t : Table) (h : k' ≠ k) :
    (st.setTable k t).table k' = st.table k' := by
  cases k <;> cases k' <;> first | rfl | exact absurd rfl h

theorem clock_setTable (st : Store) (k : Kind) (t : Table) :
    (st.setTable k t).clock = st.clock := by
  cases k <;> rfl

theorem table_clock_bump (st : Store) (c : Nat) (k : Kind) :
    (({ st with clock := c } : Store).table k) = st.table k := by
  cases k <;> rfl

theorem insertRow_table_self (st : Store) (k : Kind) (A : List (String × Val)) :
    (insertRow st k A).table k =
      { rows := (st.table k).rows ++ [⟨(st.table k).nextId, A⟩],
        nextId := (st.table k).nextId + 1 } := by
  unfold insertRow; rw [table_setTable_self]

theorem insertRow_table_ne (st : Store) (k k' : Kind) (A : List (String × Val))
    (h : k' ≠ k) : (insertRow st k A).table k' = st.table k' := by
  unfold insertRow; rw [table_setTable_ne _ _ _ _ h]

theorem insertRow_clock (st : Store) (k : Kind) (A : List (String × Val)) :
    (insertRow st k A).clock = st.clock := by
  unfold insertRow; rw [clock_setTable]

theorem mem_insertRow (st : Store) (k k' : Kind) (A : List (String × Val)) (r : Row)
    (h : r ∈ (st.table k').rows) : r ∈ ((insertRow st k A).table k').rows := by
  by_cases hk : k' = k
  · subst hk; rw [insertRow_table_self]; exact List.mem_append_left _ h
  · rw [insertRow_table_ne _ _ _ _ hk]; exact h

/-! ### Well-formedness lemmas -/

theorem mem_allKinds (k : Kind) : k ∈ allKinds := by cases k <;> decide

theorem wf_table (st : Store) (hwf : wf st = true) (k : Kind) :
    tableWF (st.table k) st.clock = true :=
  List.all_eq_true.mp hwf k (mem_allKinds k)

theorem tableWF_nextId (t : Table) (c : Nat) (h : tableWF t c = true) :
    1 ≤ t.nextId := by
  simp only [tableWF, Bool.and_eq_true, decide_eq_true_eq] at h
  exact h.1.1

theorem tableWF_row (t : Table) (c : Nat) (h : tableWF t c = true) (r : Row)
    (hr : r ∈ t.rows) : 1 ≤ r.id ∧ r.id < t.nextId ∧ timeOk r c = true := by
  simp only [tableWF, Bool.and_eq_true, List.all_eq_true, decide_eq_true_eq] at h
  have := h.1.2 r hr
  simp only [Bool.and_eq_true, decide_eq_true_eq] at this
  exact ⟨this.1.1, this.1.2, this.2⟩

theorem tableWF_sorted (t : Table) (c : Nat) (h : tableWF t c = true) :
    sortedStrictlyById t.rows = true := by
  simp only [tableWF, Bool.and_eq_true] at h
  exact h.2

theorem timeOk_eq_true_iff (r : Row) (c : Nat) :
    timeOk r c = true ↔
      ∃ m : Int, List.lookup "time" r.attrs = some (.int m) ∧ m < (c : Int) := by
  unfold timeOk
  cases hl : List.lookup "time" r.attrs with
  | none => simp
  | some v => cases v <;> simp

theorem timeOk_mono (r : Row) (c c' : Nat) (h : timeOk r c = true) (hc : c ≤ c') :
    timeOk r c' = true := by
  rw [timeOk_eq_true_iff] at h ⊢
  obtain ⟨m, hm, hlt⟩ := h
  exact ⟨m, hm, lt_of_lt_of_le hlt (by exact_mod_cast hc)⟩

theorem sortedStrictlyById_append (l : List Row) (x : Row)
    (hs : sortedStrictlyById l = true) (hb : ∀ r ∈ l, r.id < x.id) :
    sortedStrictlyById (l ++ [x]) = true := by
  induction l with
  | nil => simp [sortedStrictlyById]
  | cons a t ih =>
      cases t with
      | nil =>
          simp only [List.cons_append, List.nil_append, sortedStrictlyById,
            Bool.and_eq_true, decide_eq_true_eq]
          exact ⟨hb a (List.mem_singleton.mpr rfl), trivial⟩
      | cons b t2 =>
          simp only [sortedStrictlyById, Bool.and_eq_true] at hs
          have ih2 := ih hs.2 (fun r hr => hb r (List.mem_cons_of_mem a hr))
          simp only [List.cons_append, sortedStrictlyById, Bool.and_eq_true]
          exact ⟨hs.1, by simpa using ih2⟩

theorem tableWF_clock_mono (t : Table) (c c' : Nat) (h : tableWF t c = true)
    (hc : c ≤ c') : tableWF t c' = true := by
  simp only [tableWF, Bool.and_eq_true, List.all_eq_true, decide_eq_true_eq] at h ⊢
  exact ⟨⟨h.1.1, fun r hr =>
    ⟨⟨(h.1.2 r hr).1.1, (h.1.2 r hr).1.2⟩,
     timeOk_mono r c c' (by simpa using (h.1.2 r hr).2) hc⟩⟩, h.2⟩

/-- The attribute list `add_object` inserts always reports the stamped
time, whatever the kwargs were. -/
theorem lookup_time_newAttrs (A : List (String × Val)) (t : Val) :
    List.lookup "time" (("version", Val.int 1) :: ("time", t) :: A) = some t := by
  simp [List.lookup]

theorem lookup_version_newAttrs (A : List (String × Val)) (t : Val) :
    List.lookup "version" (("version", Val.int 1) :: ("time", t) :: A) =
      some (Val.int 1) := by
  simp [List.lookup]

/-- Inserting the freshly stamped row preserves well-formedness. -/
theorem wf_insert (st : Store) (k : Kind) (A : List (String × Val))
    (hwf : wf st = true) :
    wf (insertRow { st with clock := st.clock + 1 } k
        (("version", Val.int 1) :: ("time", Val.int st.clock) :: A)) = true := by
  set newAttrs := ("version", Val.int 1) :: ("time", Val.int st.clock) :: A with hN
  set st1 : Store := { st with clock := st.clock + 1 } with hst1
  have hclock : (insertRow st1 k newAttrs).clock = st.clock + 1 := by
    rw [insertRow_clock]
  rw [wf, List.all_eq_true]
  intro k2 _
  rw [hclock]
  by_cases hk : k2 = k
  · subst hk
    rw [insertRow_table_self]
    have ht : st1.table k2 = st.table k2 := rfl
    rw [ht]
    have hwfk := wf_table st hwf k2
    simp only [tableWF, Bool.and_eq_true, List.all_eq_true, decide_eq_true_eq] at hwfk ⊢
    refine ⟨⟨Nat.le_succ_of_le hwfk.1.1, ?_⟩, ?_⟩
    · intro r hr
      rcases List.mem_append.mp hr with h | h
      · have := hwfk.1.2 r h
        simp only [Bool.and_eq_true, decide_eq_true_eq] at this
        exact ⟨⟨this.1.1, Nat.lt_succ_of_lt this.1.2⟩,
          timeOk_mono r st.clock (st.clock + 1) this.2 (Nat.le_succ _)⟩
      · rw [List.mem_singleton.mp h]
        refine ⟨⟨hwfk.1.1, Nat.lt_succ_self _⟩, ?_⟩
        rw [timeOk_eq_true_iff]
        refine ⟨(st.clock : Int), ?_, by push_cast; omega⟩
        rw [hN]
        exact lookup_time_newAttrs A (Val.int (st.clock : Int))
    · refine sortedStrictlyById_append _ _ hwfk.2 ?_
      intro r hr
      have := hwfk.1.2 r hr
      simp only [Bool.and_eq_true, decide_eq_true_eq] at this
      exact this.1.2
  · rw [insertRow_table_ne _ _ _ _ hk]
    have ht : st1.table k2 = st.table k2 := rfl
    rw [ht]
    exact tableWF_clock_mono _ _ _ (wf_table st hwf k2) (Nat.le_succ _)

/-! ### The insert path of add_object -/

theorem legalAdd_spec (k : Kind) (A : List (String × Val)) (h : legalAdd k A = true) :
    nodupKeys A = true ∧
      ∀ p ∈ A, p.1 ∈ columns k ∧ p.1 ≠ "id" ∧ p.1 ≠ "version" ∧ p.1 ≠ "time" := by
  simp only [legalAdd, Bool.and_eq_true, List.all_eq_true, bne_iff_ne] at h
  refine ⟨h.1, fun p hp => ?_⟩
  have := h.2 p hp
  exact ⟨by simpa using this.1.1.1, this.1.1.2, this.1.2, this.2⟩

theorem rowGet_new_version (nid : Nat) (A : List (String × Val)) (t : Val) :
    rowGet ⟨nid, ("version", Val.int 1) :: ("time", t) :: A⟩ "version" = Val.int 1 := by
  simp [rowGet, lookup_version_newAttrs]

theorem rowGet_new_time (nid : Nat) (A : List (String × Val)) (t : Val) :
    rowGet ⟨nid, ("version", Val.int 1) :: ("time", t) :: A⟩ "time" = t := by
  simp [rowGet, lookup_time_newAttrs]

theorem rowGet_new_mem (nid : Nat) (k : Kind) (A : List (String × Val)) (t : Val)
    (hleg : legalAdd k A = true) (p : String × Val) (hp : p ∈ A) :
    rowGet ⟨nid, ("version", Val.int 1) :: ("time", t) :: A⟩ p.1 = p.2 := by
  obtain ⟨hnd, hkeys⟩ := legalAdd_spec k A hleg
  obtain ⟨-, hid, hver, htime⟩ := hkeys p hp
  have h1 : (p.1 == "version") = false := beq_eq_false_iff_ne.mpr hver
  have h2 : (p.1 == "time") = false := beq_eq_false_iff_ne.mpr htime
  simp only [rowGet, if_neg hid, List.lookup, h1, h2]
  rw [lookup_of_mem_nodupKeys A p.1 p.2 hnd hp]
  rfl

/-- The freshly inserted row matches the re-query filter set of
`add_object` (version, stamped time, and all the kwargs). -/
theorem matchesFilters_new (nid : Nat) (k : Kind) (A : List (String × Val)) (t : Val)
    (hleg : legalAdd k A = true) :
    matchesFilters ⟨nid, ("version", Val.int 1) :: ("time", t) :: A⟩
      (("version", Val.int 1) :: ("time", t) :: A) = true := by
  rw [matchesFilters_iff]
  intro p hp
  rcases List.mem_cons.mp hp with h | hp2
  · rw [h]; exact rowGet_new_version nid A t
  rcases List.mem_cons.mp hp2 with h | h
  · rw [h]; exact rowGet_new_time nid A t
  · exact rowGet_new_mem nid k A t hleg p h

/-- A row whose time column differs from the stamp cannot match the
re-query filter set of `add_object`. -/
theorem matchesFilters_stale (A : List (String × Val)) (r : Row) (now : Int)
    (hne : rowGet r "time" ≠ Val.int now) :
    matchesFilters r (("version", Val.int 1) :: ("time", Val.int now) :: A)
      = false := by
  by_contra hb
  have hm : matchesFilters r (("version", Val.int 1) ::
      ("time", Val.int now) :: A) = true := by
    revert hb; cases matchesFilters r (("version", Val.int 1) ::
      ("time", Val.int now) :: A) <;> simp
  rw [matchesFilters_iff] at hm
  exact hne (hm ("time", Val.int now)
    (List.mem_cons_of_mem _ (List.mem_cons_self _ _)))

/-- In a well-formed store every stored time is strictly behind the clock,
so no row's time column equals the stamp the next utcnow returns. -/
theorem wf_time_fresh (st : Store) (k : Kind) (hwf : wf st = true) :
    ∀ r ∈ (st.table k).rows, rowGet r "time" ≠ Val.int (st.clock : Int) := by
  intro r hr htime
  obtain ⟨m, hlk, hlt⟩ :=
    (timeOk_eq_true_iff r st.clock).mp (tableWF_row _ _ (wf_table st hwf k) r hr).2.2
  simp only [rowGet, if_neg (by decide : ("time" : String) ≠ "id"), hlk,
    Option.getD_some] at htime
  have hm2 : m = (st.clock : Int) := Val.int.inj htime
  omega

/-- The re-query `search_objects(session, obj_type, version=1, time=time,
**kwargs)` run right after the insert finds exactly the new row, provided
the stamp is fresh: no pre-existing row of the kind carries it. -/
theorem searchRows_insert_fresh (st : Store) (k : Kind) (A : List (String × Val))
    (now : Int) (hleg : legalAdd k A = true)
    (hfresh : ∀ r ∈ (st.table k).rows, rowGet r "time" ≠ Val.int now) :
    searchRows (insertRow st k
        (("version", Val.int 1) :: ("time", Val.int now) :: A)) k
      (("version", Val.int 1) :: ("time", Val.int now) :: A)
      = [⟨(st.table k).nextId, ("version", Val.int 1) ::
          ("time", Val.int now) :: A⟩] := by
  set newAttrs := ("version", Val.int 1) :: ("time", Val.int now) :: A
    with hN
  set newRow : Row := ⟨(st.table k).nextId, newAttrs⟩ with hR
  have htab : ((insertRow st k newAttrs).table k).rows
      = (st.table k).rows ++ [newRow] := by
    rw [insertRow_table_self]
  rw [← List.perm_singleton]
  have hperm : List.Perm (searchRows (insertRow st k newAttrs) k newAttrs)
      (((st.table k).rows ++ [newRow]).filter fun r => matchesFilters r newAttrs) := by
    unfold searchRows sortById
    rw [htab]
    exact (List.perm_insertionSort byId _).filter _
  refine hperm.trans ?_
  rw [List.filter_append]
  have hold : ((st.table k).rows.filter fun r => matchesFilters r newAttrs) = [] := by
    rw [List.filter_eq_nil_iff]
    intro r hr
    rw [hN, matchesFilters_stale A r now (hfresh r hr)]
    simp
  have hnew : ([newRow].filter fun r => matchesFilters r newAttrs) = [newRow] := by
    rw [List.filter_singleton, hR, hN, matchesFilters_new _ k A _ hleg]
    rfl
  rw [hold, hnew, List.nil_append]

/-- `insertAndRequery` under a fresh stamp: the new row is inserted under
the next id and the re-query returns exactly that id. -/
theorem insertAndRequery_spec (st : Store) (k : Kind) (A : List (String × Val))
    (now : Int) (hleg : legalAdd k A = true)
    (hfresh : ∀ r ∈ (st.table k).rows, rowGet r "time" ≠ Val.int now) :
    insertAndRequery st k A now =
      .ok ⟨(st.table k).nextId,
           insertRow st k (("version", Val.int 1) :: ("time", Val.int now) :: A),
           []⟩ := by
  simp only [insertAndRequery]
  rw [searchRows_insert_fresh st k A now hleg hfresh]

/-- On the insert path (no dangling reference, legal kwargs, duplicates
allowed or no duplicate found) `add_object_at` appends the row stamped with
`now` under the next id and returns that id with no warning — provided no
existing row of the kind already carries the timestamp `now`. -/
theorem add_object_at_insert (st : Store) (k : Kind) (dup : Bool)
    (A : List (String × Val)) (now : Int)
    (hleg : legalAdd k A = true)
    (hdang : firstDangling st A = none)
    (hdup : dup = true ∨ searchRows st k (("version", Val.int 1) :: A) = [])
    (hfresh : ∀ r ∈ (st.table k).rows, rowGet r "time" ≠ Val.int now) :
    add_object_at st k dup A now =
      .ok ⟨(st.table k).nextId,
           insertRow st k (("version", Val.int 1) :: ("time", Val.int now) :: A),
           []⟩ := by
  have hcond : (dup || (searchRows st k (("version", Val.int 1) :: A)).isEmpty)
      = true := by
    rcases hdup with h | h
    · rw [h]; rfl
    · rw [h]; simp
  unfold add_object_at
  rw [hdang]
  simp only [hleg, if_true, hcond, if_true]
  exact insertAndRequery_spec st k A now hleg hfresh

/-- On the insert path (no dangling reference, legal kwargs, duplicates
allowed or no duplicate found) `add_object` stamps the clock, appends the
row under the next id, and returns that id with no warning. -/
theorem add_object_insert (st : Store) (k : Kind) (dup : Bool)
    (A : List (String × Val))
    (hwf : wf st = true) (hleg : legalAdd k A = true)
    (hdang : firstDangling st A = none)
    (hdup : dup = true ∨ searchRows st k (("version", Val.int 1) :: A) = []) :
    add_object st k dup A =
      .ok ⟨(st.table k).nextId,
           insertRow { st with clock := st.clock + 1 } k
             (("version", Val.int 1) :: ("time", Val.int st.clock) :: A), []⟩ := by
  have hcond : (dup || (searchRows st k (("version", Val.int 1) :: A)).isEmpty)
      = true := by
    rcases hdup with h | h
    · rw [h]; rfl
    · rw [h]; simp
  unfold add_object
  rw [hdang]
  simp only [hleg, if_true, hcond, if_true]
  have hfresh : ∀ r ∈ (({ st with clock := st.clock + 1 } : Store).table k).rows,
      rowGet r "time" ≠ Val.int (st.clock : Int) := by
    rw [table_clock_bump]
    exact wf_time_fresh st k hwf
  have := insertAndRequery_spec { st with clock := st.clock + 1 } k A
    (st.clock : Int) hleg hfresh
  rw [table_clock_bump] at this
  exact this

/-- Inverting a successful `add_object` call that did not return the
sentinel: all three guards passed and the result is the insert result. -/
theorem add_object_ok_inv (st : Store) (k : Kind) (dup : Bool)
    (A : List (String × Val)) (res : AddResult)
    (hwf : wf st = true)
    (hok : add_object st k dup A = .ok res) (hid : res.id ≠ 0) :
    firstDangling st A = none ∧ legalAdd k A = true ∧
      (dup = true ∨ searchRows st k (("version", Val.int 1) :: A) = []) ∧
      res = ⟨(st.table k).nextId,
             insertRow { st with clock := st.clock + 1 } k
               (("version", Val.int 1) :: ("time", Val.int st.clock) :: A), []⟩ := by
  cases hdang : firstDangling st A with
  | some pv =>
      unfold add_object at hok
      rw [hdang] at hok
      cases hok
      exact absurd rfl hid
  | none =>
      cases hleg : legalAdd k A with
      | false =>
          unfold add_object at hok
          rw [hdang] at hok
          simp only [hleg, if_false] at hok
          cases hok
      | true =>
          cases hcond : (dup || (searchRows st k
              (("version", Val.int 1) :: A)).isEmpty) with
          | false =>
              unfold add_object at hok
              rw [hdang] at hok
              simp only [hleg, if_true, hcond, if_false] at hok
              cases hok
              exact absurd rfl hid
          | true =>
              have hdup : dup = true ∨
                  searchRows st k (("version", Val.int 1) :: A) = [] := by
                rcases Bool.or_eq_true_iff.mp hcond with h | h
                · exact Or.inl h
                · exact Or.inr (by simpa using h)
              rw [add_object_insert st k dup A hwf hleg hdang hdup] at hok
              cases hok
              exact ⟨rfl, rfl, hdup, rfl⟩

/-! ### The foreign-key check -/

theorem firstDanglingAux_cons_some (st : Store) (A : List (String × Val))
    (pk : Kind) (rest : List Kind) (v : Val)
    (hlk : List.lookup (kindName pk ++ "_id") A = some v) :
    firstDanglingAux st A (pk :: rest) =
      if (searchRows st pk [("id", v)]).isEmpty then some (pk, v)
      else firstDanglingAux st A rest := by
  simp only [firstDanglingAux, hlk]

theorem firstDanglingAux_cons_none (st : Store) (A : List (String × Val))
    (pk : Kind) (rest : List Kind)
    (hlk : List.lookup (kindName pk ++ "_id") A = none) :
    firstDanglingAux st A (pk :: rest) = firstDanglingAux st A rest := by
  simp only [firstDanglingAux, hlk]

theorem firstDanglingAux_none_mono (st st2 : Store) (A : List (String × Val))
    (hgrow : ∀ pk : Kind, ∀ r ∈ (st.table pk).rows, r ∈ (st2.table pk).rows) :
    ∀ l, firstDanglingAux st A l = none → firstDanglingAux st2 A l = none := by
  intro l
  induction l with
  | nil => intro _; rfl
  | cons pk rest ih =>
      intro h
      cases hlk : List.lookup (kindName pk ++ "_id") A with
      | none =>
          rw [firstDanglingAux_cons_none st A pk rest hlk] at h
          rw [firstDanglingAux_cons_none st2 A pk rest hlk]
          exact ih h
      | some v =>
          rw [firstDanglingAux_cons_some st A pk rest v hlk] at h
          rw [firstDanglingAux_cons_some st2 A pk rest v hlk]
          cases hie : (searchRows st pk [("id", v)]).isEmpty with
          | true => rw [hie] at h; simp at h
          | false =>
              rw [hie] at h
              simp only [Bool.false_eq_true, if_false] at h
              have hne : searchRows st pk [("id", v)] ≠ [] := by
                intro hnil; rw [hnil] at hie; cases hie
              have hne2 : searchRows st2 pk [("id", v)] ≠ [] := by
                intro hnil2
                apply hne
                rw [searchRows_eq_nil_iff] at hnil2 ⊢
                exact fun r hr => hnil2 r (hgrow pk r hr)
              have hie2 : (searchRows st2 pk [("id", v)]).isEmpty = false := by
                cases hx : searchRows st2 pk [("id", v)] with
                | nil => exact absurd hx hne2
                | cons a t => rfl
              rw [hie2]
              simp only [Bool.false_eq_true, if_false]
              exact ih h

theorem firstDangling_none_insert (st : Store) (k : Kind)
    (A B : List (String × Val)) (h : firstDangling st A = none) :
    firstDangling (insertRow { st with clock := st.clock + 1 } k B) A = none := by
  unfold firstDangling at h ⊢
  refine firstDanglingAux_none_mono st _ A ?_ allKinds h
  intro pk r hr
  have hb : (({ st with clock := st.clock + 1 } : Store).table pk) = st.table pk :=
    table_clock_bump st _ pk
  exact mem_insertRow _ k pk B r (by rw [hb]; exact hr)

theorem firstDanglingAux_ne_none (st : Store) (A : List (String × Val))
    (pk : Kind) (v : Val) :
    ∀ l, pk ∈ l →
      List.lookup (kindName pk ++ "_id") A = some v →
      searchRows st pk [("id", v)] = [] →
      firstDanglingAux st A l ≠ none := by
  intro l
  induction l with
  | nil => intro h; cases h
  | cons q rest ih =>
      intro hmem hkey hmiss
      rcases List.mem_cons.mp hmem with he | hm
      · subst he
        rw [firstDanglingAux_cons_some st A pk rest v hkey, hmiss]
        simp
      · cases hlk : List.lookup (kindName q ++ "_id") A with
        | none =>
            rw [firstDanglingAux_cons_none st A q rest hlk]
            exact ih hm hkey hmiss
        | some w =>
            rw [firstDanglingAux_cons_some st A q rest w hlk]
            cases hie : (searchRows st q [("id", w)]).isEmpty with
            | true => simp [hie]
            | false =>
                simp only [hie, Bool.false_eq_true, if_false]
                exact ih hm hkey hmiss

theorem searchRows_clock (st : Store) (c : Nat) (k : Kind)
    (F : List (String × Val)) :
    searchRows { st with clock := c } k F = searchRows st k F := by
  unfold searchRows
  rw [table_clock_bump]

theorem firstDanglingAux_clock (st : Store) (c : Nat) (A : List (String × Val)) :
    ∀ l, firstDanglingAux { st with clock := c } A l = firstDanglingAux st A l := by
  intro l
  induction l with
  | nil => rfl
  | cons pk rest ih =>
      cases hlk : List.lookup (kindName pk ++ "_id") A with
      | none =>
          rw [firstDanglingAux_cons_none _ A pk rest hlk,
            firstDanglingAux_cons_none st A pk rest hlk]
          exact ih
      | some v =>
          rw [firstDanglingAux_cons_some _ A pk rest v hlk,
            firstDanglingAux_cons_some st A pk rest v hlk, searchRows_clock, ih]

theorem firstDangling_clock (st : Store) (c : Nat) (A : List (String × Val)) :
    firstDangling { st with clock := c } A = firstDangling st A :=
  firstDanglingAux_clock st c A allKinds

theorem firstDangling_none_insertRow (st : Store) (k : Kind)
    (A B : List (String × Val)) (h : firstDangling st A = none) :
    firstDangling (insertRow st k B) A = none := by
  unfold firstDangling at h ⊢
  exact firstDanglingAux_none_mono st _ A
    (fun pk r hr => mem_insertRow st k pk B r hr) allKinds h

/-- On the insert path, `add_object` is exactly `add_object_at` evaluated
at the timestamp the modelled clock hands to utcnow: the two definitions
differ only in where the stamp comes from. -/
theorem add_object_tick (st : Store) (k : Kind) (dup : Bool)
    (A : List (String × Val))
    (hwf : wf st = true) (hleg : legalAdd k A = true)
    (hdang : firstDangling st A = none)
    (hdup : dup = true ∨ searchRows st k (("version", Val.int 1) :: A) = []) :
    add_object st k dup A =
      add_object_at { st with clock := st.clock + 1 } k dup A (st.clock : Int) := by
  rw [add_object_insert st k dup A hwf hleg hdang hdup]
  rw [add_object_at_insert { st with clock := st.clock + 1 } k dup A (st.clock : Int)
    hleg (by rw [firstDangling_clock]; exact hdang)
    (hdup.imp id (fun h => by rw [searchRows_clock]; exact h))
    (by rw [table_clock_bump]; exact wf_time_fresh st k hwf)]
  rw [table_clock_bump st (st.clock + 1) k]

/-! ### get_object_by_id lemmas -/

theorem get_object_by_id_ok (st : Store) (k : Kind) (i : Nat) (r : Row)
    (h : get_object_by_id st k i = .ok r) :
    r.id = i ∧ (st.table k).rows.filter (fun x => x.id == i) = [r] := by
  unfold get_object_by_id at h
  cases hf : (st.table k).rows.filter (fun x => x.id == i) with
  | nil => rw [hf] at h; cases h
  | cons a t =>
      cases t with
      | nil =>
          rw [hf] at h
          cases h
          have hma : r ∈ (st.table k).rows.filter (fun x => x.id == i) := by
            rw [hf]; exact List.mem_singleton.mpr rfl
          have := (List.mem_filter.mp hma).2
          exact ⟨by simpa using this, rfl⟩
      | cons b t2 => rw [hf] at h; cases h

theorem get_object_by_id_insert (st : Store) (k : Kind) (B : List (String × Val))
    (hwf : wf st = true) :
    get_object_by_id (insertRow { st with clock := st.clock + 1 } k B) k
      (st.table k).nextId = .ok ⟨(st.table k).nextId, B⟩ := by
  have htab : ((insertRow { st with clock := st.clock + 1 } k B).table k).rows
      = (st.table k).rows ++ [⟨(st.table k).nextId, B⟩] := by
    rw [insertRow_table_self, table_clock_bump]
  have hold : (st.table k).rows.filter (fun x => x.id == (st.table k).nextId)
      = [] := by
    rw [List.filter_eq_nil_iff]
    intro r hr
    have hlt := (tableWF_row _ _ (wf_table st hwf k) r hr).2.1
    simp [Nat.ne_of_lt hlt]
  unfold get_object_by_id
  rw [htab, List.filter_append, hold, List.nil_append, List.filter_singleton]
  simp

theorem wf_ids_pos (st : Store) (hwf : wf st = true) :
    ∀ k : Kind, ∀ r ∈ (st.table k).rows, r.id ≠ 0 := by
  intro k r hr
  have := (tableWF_row _ _ (wf_table st hwf k) r hr).1
  omega

/-! ### Claims about add_object: C3, C5, C6, C10 -/

/-- C5: adding an object whose kwargs contain a foreign-key attribute
`<parent>_id` matching no row of the parent kind prints a dangling-reference
warning and returns the sentinel id 0 without raising, and the store gains
no row of any kind (it is returned unchanged). -/
theorem c5_dangling_reference (st : Store) (k : Kind) (dup : Bool)
    (A : List (String × Val)) (pk : Kind) (v : Val)
    (hkey : List.lookup (kindName pk ++ "_id") A = some v)
    (hmiss : searchRows st pk [("id", v)] = []) :
    ∃ pk2 v2, add_object st k dup A = .ok ⟨0, st, [Warn.dangling k pk2 v2]⟩ := by
  have hne : firstDanglingAux st A allKinds ≠ none :=
    firstDanglingAux_ne_none st A pk v allKinds (mem_allKinds pk) hkey hmiss
  cases hd : firstDangling st A with
  | none => exact absurd hd hne
  | some pv =>
      obtain ⟨a, b⟩ := pv
      refine ⟨a, b, ?_⟩
      unfold add_object
      rw [hd]

/-- C6: after a successful add, re-adding the same kwargs with the
duplicate check enabled hits the duplicate probe (version=1 plus all the
kwargs), warns, returns the sentinel 0, and leaves the store unchanged;
and the probe's result set is exactly the rows with version 1 and all the
given attribute values. -/
theorem c6_duplicate_rejected (st : Store) (k : Kind) (d1 : Bool)
    (A : List (String × Val)) (res : AddResult)
    (hwf : wf st = true) (hleg : legalAdd k A = true)
    (h1 : add_object st k d1 A = .ok res) (hid : res.id ≠ 0) :
    add_object res.store k false A = .ok ⟨0, res.store, [Warn.duplicate k]⟩ ∧
    ∀ r, r ∈ searchRows res.store k (("version", Val.int 1) :: A) ↔
      (r ∈ (res.store.table k).rows ∧ rowGet r "version" = Val.int 1 ∧
        ∀ p ∈ A, rowGet r p.1 = p.2) := by
  obtain ⟨hdang, hlegT, hdup, hres⟩ := add_object_ok_inv st k d1 A res hwf h1 hid
  subst hres
  constructor
  · have hdang2 := firstDangling_none_insert st k A
      (("version", Val.int 1) :: ("time", Val.int st.clock) :: A) hdang
    have hnew : (⟨(st.table k).nextId, ("version", Val.int 1) ::
        ("time", Val.int st.clock) :: A⟩ : Row) ∈
        searchRows (insertRow { st with clock := st.clock + 1 } k
          (("version", Val.int 1) :: ("time", Val.int st.clock) :: A)) k
          (("version", Val.int 1) :: A) := by
      rw [mem_searchRows]
      constructor
      · rw [insertRow_table_self]
        exact List.mem_append_right _ (List.mem_singleton.mpr rfl)
      · rw [matchesFilters_iff]
        intro p hp
        rcases List.mem_cons.mp hp with h | h
        · rw [h]; exact rowGet_new_version _ A _
        · exact rowGet_new_mem _ k A _ hleg p h
    have hprobe : (searchRows (insertRow { st with clock := st.clock + 1 } k
        (("version", Val.int 1) :: ("time", Val.int st.clock) :: A)) k
        (("version", Val.int 1) :: A)).isEmpty = false := by
      cases hx : searchRows (insertRow { st with clock := st.clock + 1 } k
          (("version", Val.int 1) :: ("time", Val.int st.clock) :: A)) k
          (("version", Val.int 1) :: A) with
      | nil => rw [hx] at hnew; cases hnew
      | cons a t => rfl
    unfold add_object
    rw [hdang2]
    simp only [hleg, if_true, hprobe, Bool.false_or, Bool.false_eq_true, if_false]
  · intro r
    rw [mem_searchRows]
    constructor
    · rintro ⟨hmem, hm⟩
      rw [matchesFilters_iff] at hm
      refine ⟨hmem, ?_, fun p hp => hm p (List.mem_cons_of_mem _ hp)⟩
      exact hm ("version", Val.int 1) (List.mem_cons_self _ _)
    · rintro ⟨hmem, hver, hall⟩
      refine ⟨hmem, ?_⟩
      rw [matchesFilters_iff]
      intro p hp
      rcases List.mem_cons.mp hp with h | h
      · rw [h]; exact hver
      · exact hall p h

/-- C10: under a well-formed store and legal kwargs, `add_object` returns 0
exactly when it aborted (dangling reference, or duplicate found with the
check enabled); an abort leaves the store unchanged; a non-zero result is a
positive id carried by a row of the resulting store; well-formedness is
preserved, so no row of any kind ever carries the sentinel id 0. -/
theorem c10_sentinel_zero (st : Store) (k : Kind) (dup : Bool)
    (A : List (String × Val)) (res : AddResult)
    (hwf : wf st = true) (hleg : legalAdd k A = true)
    (hok : add_object st k dup A = .ok res) :
    (res.id = 0 ↔ (firstDangling st A ≠ none ∨
        (dup = false ∧ searchRows st k (("version", Val.int 1) :: A) ≠ []))) ∧
    (res.id = 0 → res.store = st) ∧
    (res.id ≠ 0 → 1 ≤ res.id ∧ ∃ r ∈ (res.store.table k).rows, r.id = res.id) ∧
    wf res.store = true ∧
    (∀ k2 : Kind, ∀ r ∈ (res.store.table k2).rows, r.id ≠ 0) := by
  cases hdang : firstDangling st A with
  | some pv =>
      obtain ⟨a, b⟩ := pv
      unfold add_object at hok
      rw [hdang] at hok
      cases hok
      refine ⟨⟨fun _ => Or.inl (by simp), fun _ => rfl⟩, fun _ => rfl,
        fun h0 => absurd rfl h0, hwf, wf_ids_pos st hwf⟩
  | none =>
      cases hcond : (dup || (searchRows st k
          (("version", Val.int 1) :: A)).isEmpty) with
      | false =>
          obtain ⟨hd, hie⟩ := Bool.or_eq_false_iff.mp hcond
          unfold add_object at hok
          rw [hdang] at hok
          simp only [hleg, if_true, hcond, Bool.false_eq_true, if_false] at hok
          cases hok
          have hnenil : searchRows st k (("version", Val.int 1) :: A) ≠ [] := by
            intro hnil; rw [hnil] at hie; cases hie
          refine ⟨⟨fun _ => Or.inr ⟨hd, hnenil⟩, fun _ => rfl⟩, fun _ => rfl,
            fun h0 => absurd rfl h0, hwf, wf_ids_pos st hwf⟩
      | true =>
          have hdup : dup = true ∨
              searchRows st k (("version", Val.int 1) :: A) = [] := by
            rcases Bool.or_eq_true_iff.mp hcond with h | h
            · exact Or.inl h
            · exact Or.inr (by simpa using h)
          rw [add_object_insert st k dup A hwf hleg hdang hdup] at hok
          cases hok
          have hpos : 1 ≤ (st.table k).nextId := tableWF_nextId _ _ (wf_table st hwf k)
          have hwf2 := wf_insert st k A hwf
          refine ⟨⟨fun h0 => absurd (show (st.table k).nextId = 0 from h0)
              (by omega), fun hr => ?_⟩, fun h0 => ?_,
            fun _ => ⟨hpos, ?_⟩, hwf2, wf_ids_pos _ hwf2⟩
          · rcases hr with h | ⟨hd, hne⟩
            · exact absurd rfl h
            · rcases hdup with h | h
              · rw [h] at hd; cases hd
              · exact absurd h hne
          · exact absurd (show (st.table k).nextId = 0 from h0) (by omega)
          · refine ⟨⟨(st.table k).nextId, ("version", Val.int 1) ::
              ("time", Val.int st.clock) :: A⟩, ?_, rfl⟩
            rw [insertRow_table_self, table_clock_bump]
            exact List.mem_append_right _ (List.mem_singleton.mpr rfl)

/-- C3 (amended): with duplicates allowed, adding the same kwargs twice
inserts two rows carrying all the given attribute values, and the two
returned ids are distinct (consecutive) provided the two utcnow calls
observe distinct timestamps not already carried by a row of the kind.
When the two calls observe the same timestamp, the re-query of
functions.py line 132 matches both rows and element [0] resolves both
calls to the first row (see the stalled-clock counterexample), so the
distinct-timestamp proviso is necessary. -/
theorem c3_add_twice_amended (st : Store) (k : Kind) (A : List (String × Val))
    (now1 now2 : Int)
    (hleg : legalAdd k A = true)
    (hdang : firstDangling st A = none)
    (hfresh1 : ∀ r ∈ (st.table k).rows, rowGet r "time" ≠ Val.int now1)
    (hfresh2 : ∀ r ∈ (st.table k).rows, rowGet r "time" ≠ Val.int now2)
    (hne : now1 ≠ now2) :
    ∃ res1 res2 : AddResult,
      add_object_at st k true A now1 = .ok res1 ∧
      add_object_at res1.store k true A now2 = .ok res2 ∧
      res1.id ≠ res2.id ∧
      (∃ r1 ∈ (res2.store.table k).rows, r1.id = res1.id ∧
        ∀ p ∈ A, rowGet r1 p.1 = p.2) ∧
      (∃ r2 ∈ (res2.store.table k).rows, r2.id = res2.id ∧
        ∀ p ∈ A, rowGet r2 p.1 = p.2) := by
  have e1 := add_object_at_insert st k true A now1 hleg hdang (Or.inl rfl) hfresh1
  set N1 := ("version", Val.int 1) :: ("time", Val.int now1) :: A with hN1
  set st1 : Store := insertRow st k N1 with hst1
  have hdang1 : firstDangling st1 A = none := by
    rw [hst1]
    exact firstDangling_none_insertRow st k A N1 hdang
  have hfresh2b : ∀ r ∈ (st1.table k).rows, rowGet r "time" ≠ Val.int now2 := by
    intro r hr
    rw [hst1, insertRow_table_self] at hr
    rcases List.mem_append.mp hr with h | h
    · exact hfresh2 r h
    · rw [List.mem_singleton.mp h, hN1, rowGet_new_time]
      intro hcon
      exact hne (Val.int.inj hcon)
  have e2 := add_object_at_insert st1 k true A now2 hleg hdang1 (Or.inl rfl) hfresh2b
  set n := (st.table k).nextId with hn
  have htab1 : st1.table k = ⟨(st.table k).rows ++ [⟨n, N1⟩], n + 1⟩ := by
    rw [hst1, insertRow_table_self]
  have hn1 : (st1.table k).nextId = n + 1 := by rw [htab1]
  refine ⟨⟨n, st1, []⟩, ⟨(st1.table k).nextId,
    insertRow st1 k (("version", Val.int 1) :: ("time", Val.int now2) :: A), []⟩,
    e1, e2, ?_, ?_, ?_⟩
  · show n ≠ (st1.table k).nextId
    rw [hn1]
    omega
  · refine ⟨⟨n, N1⟩, ?_, rfl, ?_⟩
    · refine mem_insertRow st1 k k _ _ ?_
      rw [htab1]
      exact List.mem_append_right _ (List.mem_singleton.mpr rfl)
    · rw [hN1]
      exact fun p hp => rowGet_new_mem n k A (Val.int now1) hleg p hp
  · refine ⟨⟨(st1.table k).nextId, ("version", Val.int 1) ::
      ("time", Val.int now2) :: A⟩, ?_, rfl,
      fun p hp => rowGet_new_mem _ k A _ hleg p hp⟩
    rw [insertRow_table_self]
    exact List.mem_append_right _ (List.mem_singleton.mpr rfl)

/-- C3 counterexample: in an execution where utcnow returns the same
timestamp for both calls, adding the same kwargs twice with duplicates
allowed inserts two rows but returns the SAME id twice: the re-query of
functions.py line 132 matches both rows, and element [0] of the id-ordered
result is the first row both times.  The claimed "two distinct ids"
therefore does not hold of the program on this schedule. -/
theorem c3_counterexample :
    add_object_at emptyStore .gateware true [("name", Val.str "g")] 0
      = .ok tieAdd1 ∧
    add_object_at tieAdd1.store .gateware true [("name", Val.str "g")] 0
      = .ok tieAdd2 ∧
    tieAdd1.id = 1 ∧ tieAdd2.id = 1 ∧
    (tieAdd2.store.table .gateware).rows.length = 2 :=
  ⟨rfl, rfl, rfl, rfl, rfl⟩

/-! ### update_object lemmas (C7) -/

theorem setRowAttr_id (r : Row) (a : String) (v : Val) :
    (setRowAttr r a v).id = r.id := rfl

theorem applyOneKwarg_id (k : Kind) (r : Row) (p : String × Val)
    (hp : p.1 ≠ "id") : (applyOneKwarg k r p).id = r.id := by
  unfold applyOneKwarg
  by_cases h : ((columns k).contains p.1) = true
  · rw [if_pos h, if_neg (by simp [hp])]
    exact setRowAttr_id r p.1 p.2
  · rw [if_neg h]

theorem applyOneKwarg_attrs (k : Kind) (r : Row) (p : String × Val) (a : String)
    (hpa : p.1 ≠ a) :
    List.lookup a (applyOneKwarg k r p).attrs = List.lookup a r.attrs := by
  unfold applyOneKwarg
  by_cases h : ((columns k).contains p.1) = true
  · rw [if_pos h]
    by_cases hid : (p.1 == "id") = true
    · rw [if_pos hid]
      cases p.2 <;> rfl
    · rw [if_neg hid]
      exact lookup_setAttrList_ne r.attrs p.1 a p.2 (Ne.symm hpa)
  · rw [if_neg h]

theorem applyKwargs_id (k : Kind) (A : List (String × Val))
    (hA : ∀ p ∈ A, p.1 ≠ "id") :
    ∀ r : Row, (applyKwargs k r A).id = r.id := by
  induction A with
  | nil => intro r; rfl
  | cons p t ih =>
      intro r
      unfold applyKwargs
      rw [List.foldl_cons]
      have h2 := ih (fun q hq => hA q (List.mem_cons_of_mem _ hq))
        (applyOneKwarg k r p)
      unfold applyKwargs at h2
      rw [h2]
      exact applyOneKwarg_id k r p (hA p (List.mem_cons_self _ _))

theorem applyKwargs_lookup_ne (k : Kind) (A : List (String × Val)) (a : String)
    (ha : ∀ p ∈ A, p.1 ≠ a) :
    ∀ r : Row, List.lookup a (applyKwargs k r A).attrs = List.lookup a r.attrs := by
  induction A with
  | nil => intro r; rfl
  | cons p t ih =>
      intro r
      unfold applyKwargs
      rw [List.foldl_cons]
      have h2 := ih (fun q hq => ha q (List.mem_cons_of_mem _ hq))
        (applyOneKwarg k r p)
      unfold applyKwargs at h2
      rw [h2]
      exact applyOneKwarg_attrs k r p a (ha p (List.mem_cons_self _ _))

theorem filter_replace_eq_nil (i : Nat) (obj : Row) :
    ∀ l : List Row, (l.filter fun x => x.id == i) = [] →
      ((l.map fun r => if r.id == i then obj else r).filter
        fun x => x.id == i) = [] := by
  intro l
  induction l with
  | nil => intro _; rfl
  | cons a t ih =>
      intro h
      rw [List.filter_cons] at h
      by_cases ha : (a.id == i) = true
      · rw [if_pos ha] at h; cases h
      · rw [if_neg ha] at h
        rw [List.map_cons, List.filter_cons, if_neg (by simp [ha]),
          ih h]

theorem filter_replace_singleton (i : Nat) (obj r0 : Row) (hobj : obj.id = i) :
    ∀ l : List Row, (l.filter fun x => x.id == i) = [r0] →
      ((l.map fun r => if r.id == i then obj else r).filter
        fun x => x.id == i) = [obj] := by
  intro l
  induction l with
  | nil => intro h; cases h
  | cons a t ih =>
      intro h
      rw [List.filter_cons] at h
      by_cases ha : (a.id == i) = true
      · rw [if_pos ha] at h
        have ht : (t.filter fun x => x.id == i) = [] := by
          cases hx : t.filter fun x => x.id == i with
          | nil => rfl
          | cons b t2 => rw [hx] at h; cases h
        rw [List.map_cons, List.filter_cons, if_pos ha,
          if_pos (by simp [hobj]), filter_replace_eq_nil i obj t ht]
      · rw [if_neg ha] at h
        rw [List.map_cons, List.filter_cons, if_neg ha,
          if_neg (by simp [ha])]
        exact ih h

/-- Running one `update_object` on a row whose kwargs do not touch the
version column: the call succeeds, the row keeps its identity, its version
is bumped by exactly one, and with `update_time` set its timestamp becomes
the current clock value. -/
theorem update_object_run (st : Store) (k : Kind) (i : Nat) (bt : Bool)
    (A : List (String × Val)) (r : Row) (n : Int)
    (hA : ∀ p ∈ A, p.1 ≠ "version")
    (hAid : ∀ p ∈ A, p.1 ≠ "id")
    (hget : get_object_by_id st k i = .ok r)
    (hver : List.lookup "version" r.attrs = some (.int n)) :
    ∃ st2 r2, update_object st k i bt A = .ok st2
      ∧ get_object_by_id st2 k i = .ok r2
      ∧ List.lookup "version" r2.attrs = some (.int (n + 1))
      ∧ (bt = true → List.lookup "time" r2.attrs = some (.int (st.clock : Int)))
      ∧ st.clock ≤ st2.clock := by
  obtain ⟨hrid, hfilter⟩ := get_object_by_id_ok st k i r hget
  have hver1 : List.lookup "version" (applyKwargs k r A).attrs
      = some (Val.int n) := by
    rw [applyKwargs_lookup_ne k A "version" hA r]
    exact hver
  set obj1 := applyKwargs k r A with hobj1
  set obj2 := setRowAttr obj1 "version" (.int (n + 1)) with hobj2
  have hid2 : obj2.id = i := by
    rw [hobj2, setRowAttr_id, hobj1, applyKwargs_id k A hAid]
    exact hrid
  have hv2 : List.lookup "version" obj2.attrs = some (.int (n + 1)) := by
    rw [hobj2]
    exact lookup_setAttrList_self obj1.attrs "version" (.int (n + 1))
  cases bt with
  | false =>
      have hupd : update_object st k i false A =
          .ok (Store.setTable st k
            (Table.mk ((st.table k).rows.map
              (fun r => if r.id == i then obj2 else r)) (st.table k).nextId)) := by
        simp only [update_object, hget, hver1, hobj2, hobj1, Bool.false_eq_true,
          if_false]
      have hP4 : false = true →
          List.lookup "time" obj2.attrs = some (.int (st.clock : Int)) :=
        fun h => nomatch h
      refine ⟨_, obj2, hupd, ?_, hv2, hP4, ?_⟩
      · unfold get_object_by_id
        rw [table_setTable_self]
        have := filter_replace_singleton i obj2 r hid2 (st.table k).rows hfilter
        simp only [this]
      · rw [clock_setTable]
  | true =>
      set obj3 := setRowAttr obj2 "time" (.int st.clock) with hobj3
      have hid3 : obj3.id = i := by rw [hobj3, setRowAttr_id]; exact hid2
      have hupd : update_object st k i true A =
          .ok (Store.setTable { st with clock := st.clock + 1 } k
            (Table.mk ((st.table k).rows.map
              (fun r => if r.id == i then obj3 else r)) (st.table k).nextId)) := by
        simp only [update_object, hget, hver1, hobj3, hobj2, hobj1, if_true]
      have hP3 : List.lookup "version" obj3.attrs = some (.int (n + 1)) :=
        (lookup_setAttrList_ne obj2.attrs "time" "version" (.int st.clock)
          (by decide)).trans hv2
      have hP4 : List.lookup "time" obj3.attrs = some (.int (st.clock : Int)) :=
        lookup_setAttrList_self obj2.attrs "time" (.int st.clock)
      refine ⟨_, obj3, hupd, ?_, hP3, fun _ => hP4, ?_⟩
      · unfold get_object_by_id
        rw [table_setTable_self]
        have := filter_replace_singleton i obj3 r hid3 (st.table k).rows hfilter
        simp only [this]
      · rw [clock_setTable]
        exact Nat.le_succ _

/-- Batched updates: starting from a row holding an integer version, a batch
of `update_object` calls none of which touches the version column succeeds
and raises the version by exactly the number of calls. -/
theorem applyUpdates_run (k : Kind) (i : Nat) :
    ∀ (ups : List (Bool × List (String × Val))) (st : Store) (r : Row) (n : Int),
      (∀ u ∈ ups, ∀ p ∈ u.2, p.1 ≠ "version" ∧ p.1 ≠ "id") →
      get_object_by_id st k i = .ok r →
      List.lookup "version" r.attrs = some (.int n) →
      ∃ st2 r2, applyUpdates st k i ups = .ok st2
        ∧ get_object_by_id st2 k i = .ok r2
        ∧ List.lookup "version" r2.attrs = some (.int (n + ups.length)) := by
  intro ups
  induction ups with
  | nil =>
      intro st r n _ hget hver
      exact ⟨st, r, rfl, hget, by simpa using hver⟩
  | cons u rest ih =>
      intro st r n hups hget hver
      obtain ⟨bt, A⟩ := u
      obtain ⟨st2, r2, hstep, hget2, hver2, -, -⟩ :=
        update_object_run st k i bt A r n
          (fun p hp => (hups (bt, A) (List.mem_cons_self _ _) p hp).1)
          (fun p hp => (hups (bt, A) (List.mem_cons_self _ _) p hp).2) hget hver
      obtain ⟨st3, r3, hrest, hget3, hver3⟩ :=
        ih st2 r2 (n + 1) (fun u hu => hups u (List.mem_cons_of_mem _ hu))
          hget2 hver2
      refine ⟨st3, r3, ?_, hget3, ?_⟩
      · unfold applyUpdates
        rw [hstep]
        exact hrest
      · rw [hver3]
        simp only [List.length_cons]
        congr 1
        push_cast
        ring_nf

/-- C7: `update_object` increments the version by exactly 1 regardless of
which attributes are supplied (as long as they overwrite neither the
version counter nor the primary key — the source docstring forbids passing
id, version or time; an id kwarg would be flushed as a primary-key UPDATE
moving the row), refreshing the timestamp when `update_time` is set; and
from a freshly added row (version 1), a batch of N such updates leaves
version 1 + N. -/
theorem c7_update_version (st : Store) (k : Kind) (dup : Bool)
    (A0 : List (String × Val)) (res : AddResult)
    (ups : List (Bool × List (String × Val)))
    (hwf : wf st = true) (_hleg : legalAdd k A0 = true)
    (hok : add_object st k dup A0 = .ok res) (hid : res.id ≠ 0)
    (hups : ∀ u ∈ ups, ∀ p ∈ u.2, p.1 ≠ "version" ∧ p.1 ≠ "id") :
    (∃ st2 r2, applyUpdates res.store k res.id ups = .ok st2
      ∧ get_object_by_id st2 k res.id = .ok r2
      ∧ List.lookup "version" r2.attrs = some (.int (1 + ups.length))) ∧
    (∀ (bt : Bool) (A : List (String × Val)) (st3 : Store) (r3 : Row) (m : Int),
      (∀ p ∈ A, p.1 ≠ "version") →
      (∀ p ∈ A, p.1 ≠ "id") →
      get_object_by_id st3 k res.id = .ok r3 →
      List.lookup "version" r3.attrs = some (.int m) →
      ∃ st4 r4, update_object st3 k res.id bt A = .ok st4
        ∧ get_object_by_id st4 k res.id = .ok r4
        ∧ List.lookup "version" r4.attrs = some (.int (m + 1))
        ∧ (bt = true →
            List.lookup "time" r4.attrs = some (.int (st3.clock : Int)))) := by
  obtain ⟨hdang, hlegT, hdup, hres⟩ := add_object_ok_inv st k dup A0 res hwf hok hid
  constructor
  · have hget0 : get_object_by_id res.store k res.id =
        .ok ⟨(st.table k).nextId, ("version", Val.int 1) ::
          ("time", Val.int st.clock) :: A0⟩ := by
      rw [hres]
      exact get_object_by_id_insert st k _ hwf
    have hver0 : List.lookup "version" (("version", Val.int 1) ::
        ("time", Val.int st.clock) :: A0) = some (Val.int 1) :=
      lookup_version_newAttrs A0 (Val.int st.clock)
    exact applyUpdates_run k res.id ups res.store _ 1 hups hget0 hver0
  · intro bt A st3 r3 m hA hAid hget3 hver3
    obtain ⟨st4, r4, hstep, hget4, hver4, htime4, -⟩ :=
      update_object_run st3 k res.id bt A r3 m hA hAid hget3 hver3
    exact ⟨st4, r4, hstep, hget4, hver4, htime4⟩

/-! ### C9: search semantics -/

/-- C9: with filters over mapped columns, `search_objects` never fails: it
returns exactly the rows of the kind matching every equality filter
(a permutation-precise characterisation plus a membership criterion), in
ascending id order; the empty filter set is the special case that keeps
every row. -/
theorem c9_search_semantics (st : Store) (k : Kind) (F : List (String × Val))
    (h : ∀ p ∈ F, p.1 ∈ columns k) :
    ∃ l, search_objects st k F = .ok l
      ∧ List.Perm l ((st.table k).rows.filter fun r => matchesFilters r F)
      ∧ List.Pairwise byId l
      ∧ (∀ r, r ∈ l ↔ (r ∈ (st.table k).rows ∧ ∀ p ∈ F, rowGet r p.1 = p.2)) := by
  have hguard : (F.all fun p => (columns k).contains p.1) = true := by
    rw [List.all_eq_true]
    intro p hp
    simpa using h p hp
  refine ⟨searchRows st k F, ?_, ?_, ?_, ?_⟩
  · unfold search_objects
    rw [hguard]
    simp
  · unfold searchRows sortById
    exact (List.perm_insertionSort byId _).filter _
  · unfold searchRows sortById
    exact List.Pairwise.sublist (List.filter_sublist _)
      (List.sorted_insertionSort byId _)
  · intro r
    rw [mem_searchRows, matchesFilters_iff]

/-! ### C4: the transaction scope -/

/-- C4: `session_scope` commits the body's changes on normal exit, rolls
back to the opening state and re-raises on any exception, and closes the
session on every exit path. -/
theorem c4_session_scope {ε : Type} (body : Store → Except ε Store) (db : Store) :
    (∀ s, body db = .ok s →
      session_scope body db = ⟨s, none, true⟩)
    ∧ (∀ e, body db = .error e →
      session_scope body db = ⟨db, some e, true⟩)
    ∧ (session_scope body db).closed = true := by
  refine ⟨?_, ?_, ?_⟩
  · intro s hs
    unfold session_scope
    rw [hs]
    rfl
  · intro e he
    unfold session_scope
    rw [he]
    rfl
  · unfold session_scope
    cases body db <;> rfl

/-! ### C8: cascading delete -/

/-- C1: `chainStore` is exactly the scenario of the claim (one gateware,
one devicedb pointing at it, one project, one pipeline, one sequence, two
measurements, each referencing its parent), yet `write_database` does not
produce the nested tree: it raises AttributeError, because the source calls
`.asdict()` on the list returned by `search_objects` at the devicedb step. -/
theorem c1_write_database_raises :
    (chainStore.table .gateware).rows.length = 1 ∧
    (chainStore.table .devicedb).rows.length = 1 ∧
    (chainStore.table .project).rows.length = 1 ∧
    (chainStore.table .pipeline).rows.length = 1 ∧
    (chainStore.table .sequence).rows.length = 1 ∧
    (chainStore.table .measurement).rows.length = 2 ∧
    (∀ r ∈ (chainStore.table .devicedb).rows, rowGet r "gateware_id" = .int 1) ∧
    (∀ r ∈ (chainStore.table .project).rows, rowGet r "devicedb_id" = .int 1) ∧
    (∀ r ∈ (chainStore.table .pipeline).rows, rowGet r "project_id" = .int 1) ∧
    (∀ r ∈ (chainStore.table .sequence).rows, rowGet r "pipeline_id" = .int 1) ∧
    (∀ r ∈ (chainStore.table .measurement).rows, rowGet r "sequence_id" = .int 1) ∧
    write_database chainStore = .error .attributeError := by
  refine ⟨rfl, rfl, rfl, rfl, rfl, rfl, ?_, ?_, ?_, ?_, ?_, rfl⟩ <;> decide

/-- C2: the summary branch of `print_info` raises AttributeError on every
store state: building the grouped subquery evaluates
`Sequence.pipeline.project_id`, and a relationship attribute does not
expose the target's columns.  It therefore never emits the per-project
report the spec describes. -/
theorem c2_print_info_summary_raises (st : Store) :
    printInfoSummary st = .error .attributeError := rfl

/-! ### Witnesses -/

/-- A successful concrete add used by several witnesses. -/
def demoAdd : AddResult := addOk emptyStore .gateware false [("name", Val.str "g")]

theorem c3_amended_witness :
    legalAdd .gateware [("name", Val.str "g")] = true ∧
    firstDangling emptyStore [("name", Val.str "g")] = none ∧
    (0 : Int) ≠ 1 ∧
    ∃ res1 res2 : AddResult,
      add_object_at emptyStore .gateware true [("name", Val.str "g")] 0
        = .ok res1 ∧
      add_object_at res1.store .gateware true [("name", Val.str "g")] 1
        = .ok res2 ∧
      res1.id ≠ res2.id ∧
      (∃ r1 ∈ (res2.store.table .gateware).rows, r1.id = res1.id ∧
        ∀ p ∈ [("name", Val.str "g")], rowGet r1 p.1 = p.2) ∧
      (∃ r2 ∈ (res2.store.table .gateware).rows, r2.id = res2.id ∧
        ∀ p ∈ [("name", Val.str "g")], rowGet r2 p.1 = p.2) :=
  ⟨by decide, by decide, by decide,
   c3_add_twice_amended emptyStore .gateware [("name", Val.str "g")] 0 1
     (by decide) (by decide) (by decide) (by decide) (by decide)⟩

theorem c4_witness :
    session_scope (fun s => (Except.ok s : Except Nat Store)) emptyStore
      = ⟨emptyStore, none, true⟩ ∧
    session_scope (fun _ => (Except.error 7 : Except Nat Store)) emptyStore
      = ⟨emptyStore, some 7, true⟩ :=
  ⟨(c4_session_scope (fun s => (Except.ok s : Except Nat Store)) emptyStore).1
      emptyStore rfl,
   (c4_session_scope (fun _ => (Except.error 7 : Except Nat Store)) emptyStore).2.1
      7 rfl⟩

theorem c5_witness :
    List.lookup "devicedb_id" [("name", Val.str "p"), ("devicedb_id", Val.int 1)]
      = some (Val.int 1) ∧
    searchRows emptyStore .devicedb [("id", Val.int 1)] = [] ∧
    ∃ pk2 v2, add_object emptyStore .project false
        [("name", Val.str "p"), ("devicedb_id", Val.int 1)]
      = .ok ⟨0, emptyStore, [Warn.dangling .project pk2 v2]⟩ :=
  ⟨rfl, rfl,
   c5_dangling_reference emptyStore .project false
     [("name", Val.str "p"), ("devicedb_id", Val.int 1)] .devicedb (Val.int 1)
     rfl rfl⟩

theorem c6_witness :
    add_object emptyStore .gateware false [("name", Val.str "g")] = .ok demoAdd ∧
    demoAdd.id ≠ 0 ∧
    (add_object demoAdd.store .gateware false [("name", Val.str "g")]
        = .ok ⟨0, demoAdd.store, [Warn.duplicate .gateware]⟩ ∧
      ∀ r, r ∈ searchRows demoAdd.store .gateware
          (("version", Val.int 1) :: [("name", Val.str "g")]) ↔
        (r ∈ (demoAdd.store.table .gateware).rows ∧
          rowGet r "version" = Val.int 1 ∧
          ∀ p ∈ [("name", Val.str "g")], rowGet r p.1 = p.2)) :=
  ⟨rfl, by decide,
   c6_duplicate_rejected emptyStore .gateware false [("name", Val.str "g")]
     demoAdd (by decide) (by decide) rfl (by decide)⟩

theorem c7_witness :
    ∃ st2 r2, applyUpdates demoAdd.store .gateware demoAdd.id
        [(true, [("path", Val.str "p1")]), (false, [("name", Val.str "g2")])]
        = .ok st2
      ∧ get_object_by_id st2 .gateware demoAdd.id = .ok r2
      ∧ List.lookup "version" r2.attrs = some (Val.int 3) :=
  (c7_update_version emptyStore .gateware false [("name", Val.str "g")] demoAdd
    [(true, [("path", Val.str "p1")]), (false, [("name", Val.str "g2")])]
    (by decide) (by decide) rfl (by decide) (by decide)).1

theorem c9_witness :
    ∃ l, search_objects chainStore .measurement [("sequence_id", Val.int 1)]
        = .ok l
      ∧ List.Perm l ((chainStore.table .measurement).rows.filter
          fun r => matchesFilters r [("sequence_id", Val.int 1)])
      ∧ List.Pairwise byId l
      ∧ (∀ r, r ∈ l ↔ (r ∈ (chainStore.table .measurement).rows ∧
          ∀ p ∈ [("sequence_id", Val.int 1)], rowGet r p.1 = p.2)) :=
  c9_search_semantics chainStore .measurement [("sequence_id", Val.int 1)]
    (by decide)

theorem c10_witness :
    (demoAdd.id = 0 ↔ (firstDangling emptyStore [("name", Val.str "g")] ≠ none ∨
        (false = false ∧ searchRows emptyStore .gateware
          (("version", Val.int 1) :: [("name", Val.str "g")]) ≠ []))) ∧
    (demoAdd.id = 0 → demoAdd.store = emptyStore) ∧
    (demoAdd.id ≠ 0 → 1 ≤ demoAdd.id ∧
      ∃ r ∈ (demoAdd.store.table .gateware).rows, r.id = demoAdd.id) ∧
    wf demoAdd.store = true ∧
    (∀ k2 : Kind, ∀ r ∈ (demoAdd.store.table k2).rows, r.id ≠ 0) :=
  c10_sentinel_zero emptyStore .gateware false [("name", Val.str "g")] demoAdd
    (by decide) (by decide) rfl

end Seneca
